/-
Verification of the Klipper LED-strip controller script (klipper-ledstrip.py).

The script's pure color arithmetic (average, mix_color,
color_brightness_correction, the guarded ratio inside heating_percent) is
embedded over ℚ and ℤ, with Python's round (banker's rounding, half to even)
and int() (truncation toward zero) made explicit.  The strip-mutating routines
(progress, fade, chase, bounce, and the KeyboardInterrupt handler inside run)
are embedded as the traces of LED-driver calls they emit (setBrightness,
setPixelColorRGB, show, sleep); a small operational semantics (applyEvents,
brightnessAfter, displayedBrightnesses) replays such a trace against a strip
state.  The module-level constants LED_BRIGHTNESS and REVERSE that the source
reads as globals are exposed as explicit parameters of the embedded routines;
the script's own values are kept as the definitions LED_BRIGHTNESS, LED_COUNT
and REVERSE below.
-/
import Mathlib

/-- An RGB color: the script's 3-tuple of Python ints. -/
structure Color where
  r : ℤ
  g : ℤ
  b : ℤ
deriving DecidableEq, Repr

/-- Python `int(x)` applied to a number: truncation toward zero. -/
def pyInt (q : ℚ) : ℤ := if q < 0 then Int.ceil q else Int.floor q

/-- Python 3 `round(x)` (no `ndigits`): round half to even. -/
def pyRound (q : ℚ) : ℤ :=
  if q - Int.floor q < 1/2 then Int.floor q
  else if 1/2 < q - Int.floor q then Int.floor q + 1
  else if Int.floor q % 2 = 0 then Int.floor q else Int.floor q + 1

/-- Source `average(num_a, num_b)`: `round((num_a + num_b) / 2)`. -/
def average (num_a num_b : ℚ) : ℤ := pyRound ((num_a + num_b) / 2)

/-- Python truthiness of the optional `percent_of_c1` argument of `mix_color`:
`None`, `0` and `0.0` are falsy, every other number is truthy. -/
def weightTruthy : Option ℚ → Bool
  | none => false
  | some w => decide (w ≠ 0)

/-- Source `mix_color(colour1, colour2, percent_of_c1=None)`.  When the weight
argument is truthy, both colors are channel-scaled before averaging.  `average`
already returns an integer, so the final Python `int(...)` conversions are the
identity and the `average` results are used directly. -/
def mix_color (colour1 colour2 : Color) (percent_of_c1 : Option ℚ) : Color :=
  let w := percent_of_c1.getD 0
  let c1 : ℚ × ℚ × ℚ :=
    if weightTruthy percent_of_c1 then (colour1.r * w, colour1.g * w, colour1.b * w)
    else (colour1.r, colour1.g, colour1.b)
  let c2 : ℚ × ℚ × ℚ :=
    if weightTruthy percent_of_c1 then
      (colour2.r * (1 - w), colour2.g * (1 - w), colour2.b * (1 - w))
    else (colour2.r, colour2.g, colour2.b)
  ⟨average c1.1 c2.1, average c1.2.1 c2.2.1, average c1.2.2 c2.2.2⟩

/-- Spec-side `mixColor(c1, c2, weight?)`, following the spec's words: "if
weight given (fraction in [0,1]), scales c1 by weight and c2 by (1−weight)
before per-channel averaging; else unweighted average" — the branch is on the
weight being GIVEN, not (as in the source) on it being nonzero. -/
def mixColor_spec (colour1 colour2 : Color) (weight : Option ℚ) : Color :=
  match weight with
  | some w =>
      ⟨average (colour1.r * w) (colour2.r * (1 - w)),
       average (colour1.g * w) (colour2.g * (1 - w)),
       average (colour1.b * w) (colour2.b * (1 - w))⟩
  | none =>
      ⟨average colour1.r colour2.r, average colour1.g colour2.g,
       average colour1.b colour2.b⟩

/-- Module constant `LED_COUNT = 10`. -/
def LED_COUNT : ℕ := 10

/-- Module constant `LED_BRIGHTNESS = 100`. -/
def LED_BRIGHTNESS : ℕ := 100

/-- Module constant `REVERSE = True`. -/
def REVERSE : Bool := true

/-- Source `color_brightness_correction(color)`; the module global
`LED_BRIGHTNESS` that it reads is exposed as the `led_brightness` parameter
(the script fixes it to 100). -/
def color_brightness_correction (led_brightness : ℕ) (color : Color) : Color :=
  let brightness_correction : ℚ := (led_brightness : ℚ) / 255
  ⟨pyInt (color.r * brightness_correction),
   pyInt (color.g * brightness_correction),
   pyInt (color.b * brightness_correction)⟩

/-- Source `heating_percent(component)`: the arithmetic it applies to the
queried `temperature` and `target` fields of the heater object. -/
def heating_percent (temperature target : ℚ) : ℤ :=
  if target = 0 then 0 else Int.floor (temperature / target * 100)

/-- A driver call emitted by the script: the strip API surface it uses. -/
inductive Event where
  | setBrightness (b : ℕ)
  | setPixel (pixel : ℤ) (c : Color)
  | show_
  | sleep (seconds : ℚ)
deriving DecidableEq, Repr

/-- Source `progress`: the local `upper_bar = (percent / 100) * num_pixels`. -/
def upper_bar (num_pixels percent : ℕ) : ℚ := ((percent : ℚ) / 100) * num_pixels

/-- Integral part of `upper_bar` (`math.modf`'s second component, used by the
source as `int(upper_whole)`; it is nonnegative here since `percent` is). -/
def upper_whole (num_pixels percent : ℕ) : ℕ :=
  (Int.floor (upper_bar num_pixels percent)).toNat

/-- Fractional part of `upper_bar` (`math.modf`'s first component). -/
def upper_remainder (num_pixels percent : ℕ) : ℚ :=
  upper_bar num_pixels percent - Int.floor (upper_bar num_pixels percent)

/-- Value of the source local `pixels_remaining` when the last loop of
`progress` starts: the strip length minus one per earlier pixel write. -/
def pixels_remaining (num_pixels percent : ℕ) : ℕ :=
  num_pixels - upper_whole num_pixels percent -
    (if 0 < upper_remainder num_pixels percent then 1 else 0)

/-- First loop of `progress`: `int(upper_whole)` pixels of brightness-corrected
`progress_color`, filled from the far end downward when `reverse`. -/
def progress_fill (reverse : Bool) (led_brightness num_pixels percent : ℕ)
    (progress_color : Color) : List Event :=
  (List.range (upper_whole num_pixels percent)).map (fun i : ℕ =>
    Event.setPixel (if reverse then ((num_pixels : ℤ) - 1) - (i : ℤ) else (i : ℤ))
      (color_brightness_correction led_brightness progress_color))

/-- Boundary write of `progress`: one pixel of the brightness-corrected tween
color when the fractional remainder is positive. -/
def progress_boundary (reverse : Bool) (led_brightness num_pixels percent : ℕ)
    (base_color progress_color : Color) : List Event :=
  if 0 < upper_remainder num_pixels percent then
    [Event.setPixel
      (if reverse then ((num_pixels : ℤ) - upper_whole num_pixels percent) - 1
       else (upper_whole num_pixels percent : ℤ))
      (color_brightness_correction led_brightness
        (mix_color progress_color base_color (some (upper_remainder num_pixels percent))))]
  else []

/-- Last loop of `progress`: the `pixels_remaining` brightness-corrected
base-color pixels. -/
def progress_base_fill (reverse : Bool) (led_brightness num_pixels percent : ℕ)
    (base_color : Color) : List Event :=
  (List.range (pixels_remaining num_pixels percent)).map (fun i : ℕ =>
    Event.setPixel
      (if reverse then ((pixels_remaining num_pixels percent : ℤ) - 1) - (i : ℤ)
       else ((num_pixels : ℤ) - pixels_remaining num_pixels percent) + (i : ℤ))
      (color_brightness_correction led_brightness base_color))

/-- Source `progress(strip, percent, base_color, progress_color)` as the trace
of driver calls it performs; the globals `REVERSE` and `LED_BRIGHTNESS` are the
`reverse` and `led_brightness` parameters. -/
def progress (reverse : Bool) (led_brightness num_pixels percent : ℕ)
    (base_color progress_color : Color) : List Event :=
  Event.setBrightness led_brightness ::
    (progress_fill reverse led_brightness num_pixels percent progress_color ++
     progress_boundary reverse led_brightness num_pixels percent base_color progress_color ++
     progress_base_fill reverse led_brightness num_pixels percent base_color) ++
    [Event.show_]

/-- Number of pixels a `progress` call paints with something other than the
base color: the progress fill plus the optional boundary pixel. -/
def progress_lit_count (reverse : Bool) (led_brightness num_pixels percent : ℕ)
    (base_color progress_color : Color) : ℕ :=
  (progress_fill reverse led_brightness num_pixels percent progress_color).length +
  (progress_boundary reverse led_brightness num_pixels percent base_color
    progress_color).length

/-- Source `fade(strip, color, speed)` as its driver-call trace: paint the
whole strip, show, ramp brightness `0,…,LED_BRIGHTNESS-1` up, hold, then ramp
`LED_BRIGHTNESS,…,0` down (`range(LED_BRIGHTNESS, -1, -1)`), showing and
sleeping at every step. -/
def fade (led_brightness num_pixels : ℕ) (color : Color) (speed : String) :
    List Event :=
  let speed_val : ℚ := if speed = "slow" then 1/20 else 1/200
  ((List.range num_pixels).map (fun pixel : ℕ =>
      Event.setPixel (pixel : ℤ) color) ++ [Event.show_]) ++
    (List.range led_brightness).flatMap
      (fun i => [Event.setBrightness i, Event.show_, Event.sleep speed_val]) ++
    [Event.sleep (speed_val * 5)] ++
    (List.range (led_brightness + 1)).flatMap
      (fun j => [Event.setBrightness (led_brightness - j), Event.show_,
                 Event.sleep speed_val])

/-- Sweep positions of `chase`: `range(num_pixels + 1)`, reversed when
`reverse`. -/
def chase_sweep (num_pixels : ℕ) (reverse : Bool) : List ℕ :=
  if reverse then (List.range (num_pixels + 1)).reverse
  else List.range (num_pixels + 1)

/-- Inner loop of `chase` at sweep position `i`: pixel `i` gets the color,
every other pixel is blanked, showing and sleeping after every single write. -/
def chase_step (num_pixels : ℕ) (color : Color) (i : ℕ) : List Event :=
  (List.range num_pixels).flatMap (fun pixel : ℕ =>
    [Event.setPixel (pixel : ℤ) (if i = pixel then color else ⟨0, 0, 0⟩),
     Event.show_, Event.sleep (1/100)])

/-- Source `chase(strip, color, reverse)` as its driver-call trace. -/
def chase (led_brightness num_pixels : ℕ) (color : Color) (reverse : Bool) :
    List Event :=
  Event.setBrightness led_brightness ::
    (chase_sweep num_pixels reverse).flatMap (chase_step num_pixels color)

/-- Source `bounce(strip, color)`: a forward chase then a reversed chase. -/
def bounce (led_brightness num_pixels : ℕ) (color : Color) : List Event :=
  chase led_brightness num_pixels color false ++
  chase led_brightness num_pixels color true

/-- KeyboardInterrupt handler inside `run`: blank every pixel of the strip,
then one final show. -/
def run_interrupt_handler (num_pixels : ℕ) : List Event :=
  (List.range num_pixels).map (fun i : ℕ => Event.setPixel (i : ℤ) ⟨0, 0, 0⟩) ++
    [Event.show_]

/-- Effect of one driver call on the pixel array; `setPixelColorRGB` with an
index at or past the end of the strip is modelled as a no-op (`List.set`), as
is a negative index. -/
def applyEvent (s : List Color) : Event → List Color
  | Event.setPixel i c => if 0 ≤ i then s.set i.toNat c else s
  | _ => s

/-- Replay a trace of driver calls against a pixel array. -/
def applyEvents (s : List Color) (tr : List Event) : List Color :=
  tr.foldl applyEvent s

/-- Pixel writes of a trace, as (index, color) pairs in emission order. -/
def stripWrites (tr : List Event) : List (ℤ × Color) :=
  tr.filterMap (fun e => match e with
    | Event.setPixel i c => some (i, c)
    | _ => none)

/-- Indices of the pixel writes of a trace, in emission order. -/
def writeIndices (tr : List Event) : List ℤ := (stripWrites tr).map Prod.fst

/-- One pixel write as a state step (the `setPixel` case of `applyEvent`). -/
def stripStep (s : List Color) (w : ℤ × Color) : List Color :=
  if 0 ≤ w.1 then s.set w.1.toNat w.2 else s

/-- Global brightness after replaying a trace, starting from brightness `b`. -/
def brightnessAfter (b : ℕ) (tr : List Event) : ℕ :=
  tr.foldl (fun cur e => match e with
    | Event.setBrightness b2 => b2
    | _ => cur) b

/-- Brightness in effect at each `show` of a trace, starting from `b`: the
sequence of brightnesses at which the strip is actually displayed. -/
def displayedBrightnesses (b : ℕ) : List Event → List ℕ
  | [] => []
  | Event.setBrightness b2 :: tr => displayedBrightnesses b2 tr
  | Event.show_ :: tr => b :: displayedBrightnesses b tr
  | _ :: tr => displayedBrightnesses b tr

/-- Python `int()` of an integer value is that integer. -/
lemma pyInt_intCast (z : ℤ) : pyInt (z : ℚ) = z := by
  unfold pyInt
  split <;> simp

lemma upper_bar_eq (num_pixels percent : ℕ) :
    upper_bar num_pixels percent = ((percent * num_pixels : ℕ) : ℚ) / 100 := by
  unfold upper_bar
  push_cast
  ring

lemma floor_upper_bar (num_pixels percent : ℕ) :
    Int.floor (upper_bar num_pixels percent) =
      ((percent * num_pixels / 100 : ℕ) : ℤ) := by
  rw [upper_bar_eq, Int.floor_eq_iff]
  constructor
  · rw [le_div_iff₀ (by norm_num : (0 : ℚ) < 100)]
    exact_mod_cast Nat.div_mul_le_self (percent * num_pixels) 100
  · rw [div_lt_iff₀ (by norm_num : (0 : ℚ) < 100)]
    have h : percent * num_pixels < (percent * num_pixels / 100 + 1) * 100 := by omega
    push_cast
    exact_mod_cast h

lemma upper_whole_eq (num_pixels percent : ℕ) :
    upper_whole num_pixels percent = percent * num_pixels / 100 := by
  unfold upper_whole
  rw [floor_upper_bar, Int.toNat_natCast]

lemma upper_remainder_eq (num_pixels percent : ℕ) :
    upper_remainder num_pixels percent =
      ((percent * num_pixels % 100 : ℕ) : ℚ) / 100 := by
  unfold upper_remainder
  rw [floor_upper_bar, upper_bar_eq, Int.cast_natCast]
  have key0 : 100 * (percent * num_pixels / 100) + percent * num_pixels % 100 =
      percent * num_pixels := Nat.div_add_mod (percent * num_pixels) 100
  have key : (100 : ℚ) * ((percent * num_pixels / 100 : ℕ) : ℚ) +
      ((percent * num_pixels % 100 : ℕ) : ℚ) =
        ((percent * num_pixels : ℕ) : ℚ) := by
    exact_mod_cast key0
  linarith

lemma upper_remainder_pos_iff (num_pixels percent : ℕ) :
    0 < upper_remainder num_pixels percent ↔
      percent * num_pixels % 100 ≠ 0 := by
  rw [upper_remainder_eq]
  rw [div_pos_iff]
  constructor
  · rintro (⟨h, -⟩ | ⟨h, h100⟩)
    · intro h0
      rw [h0] at h
      norm_num at h
    · norm_num at h100
  · intro h
    left
    constructor
    · have : 0 < percent * num_pixels % 100 := Nat.pos_of_ne_zero h
      exact_mod_cast this
    · norm_num

lemma upper_whole_le (num_pixels percent : ℕ) (hp : percent ≤ 100) :
    upper_whole num_pixels percent ≤ num_pixels := by
  rw [upper_whole_eq]
  have h := Nat.mul_le_mul_right num_pixels hp
  omega

lemma upper_whole_lt (num_pixels percent : ℕ) (hp : percent ≤ 100)
    (hr : percent * num_pixels % 100 ≠ 0) :
    upper_whole num_pixels percent < num_pixels := by
  rw [upper_whole_eq]
  have h := Nat.mul_le_mul_right num_pixels hp
  omega

lemma stripWrites_nil : stripWrites [] = [] := rfl

lemma stripWrites_append (l1 l2 : List Event) :
    stripWrites (l1 ++ l2) = stripWrites l1 ++ stripWrites l2 := by
  unfold stripWrites
  exact List.filterMap_append l1 l2 _

lemma stripWrites_map_setPixel {α : Type} (l : List α) (g : α → ℤ) (f : α → Color) :
    stripWrites (l.map (fun a => Event.setPixel (g a) (f a))) =
      l.map (fun a => (g a, f a)) := by
  unfold stripWrites
  rw [List.filterMap_map]
  exact List.filterMap_eq_map_iff_forall_eq_some.mpr (fun a _ => rfl)

lemma writeIndices_append (l1 l2 : List Event) :
    writeIndices (l1 ++ l2) = writeIndices l1 ++ writeIndices l2 := by
  unfold writeIndices
  rw [stripWrites_append, List.map_append]

lemma writeIndices_map_setPixel {α : Type} (l : List α) (g : α → ℤ) (f : α → Color) :
    writeIndices (l.map (fun a => Event.setPixel (g a) (f a))) = l.map g := by
  unfold writeIndices
  rw [stripWrites_map_setPixel, List.map_map]
  rfl

lemma applyEvents_eq_foldl (tr : List Event) :
    ∀ s : List Color, applyEvents s tr = (stripWrites tr).foldl stripStep s := by
  induction tr with
  | nil => intro s; rfl
  | cons e tr ih =>
    intro s
    cases e with
    | setPixel i c =>
      show applyEvents (applyEvent s (Event.setPixel i c)) tr = _
      rw [ih]
      rfl
    | setBrightness b => exact ih s
    | show_ => exact ih s
    | sleep q => exact ih s

lemma length_foldl_stripStep (ws : List (ℤ × Color)) :
    ∀ s : List Color, (ws.foldl stripStep s).length = s.length := by
  induction ws with
  | nil => intro s; rfl
  | cons w ws ih =>
    intro s
    rw [List.foldl_cons, ih]
    unfold stripStep
    split <;> simp

lemma getElem?_foldl_stripStep (F : ℕ → Color) :
    ∀ (ws : List (ℤ × Color)) (s : List Color),
      (∀ w ∈ ws, 0 ≤ w.1 ∧ w.2 = F w.1.toNat) →
      ∀ j : ℕ, j < s.length →
        (ws.foldl stripStep s)[j]? =
          if (j : ℤ) ∈ ws.map Prod.fst then some (F j) else s[j]? := by
  intro ws
  induction ws with
  | nil =>
    intro s _ j hj
    simp
  | cons w ws ih =>
    intro s hw j hj
    have hw0 : 0 ≤ w.1 ∧ w.2 = F w.1.toNat := hw w (List.mem_cons_self w ws)
    have hstep_len : (stripStep s w).length = s.length := by
      unfold stripStep
      split <;> simp
    rw [List.foldl_cons,
      ih (stripStep s w) (fun x hx => hw x (List.mem_cons_of_mem w hx)) j
        (by rw [hstep_len]; exact hj)]
    by_cases hmem : (j : ℤ) ∈ ws.map Prod.fst
    · rw [if_pos hmem, if_pos (by rw [List.map_cons]; exact List.mem_cons_of_mem _ hmem)]
    · rw [if_neg hmem]
      by_cases hwj : w.1 = (j : ℤ)
      · rw [if_pos (by rw [List.map_cons]; exact hwj ▸ List.mem_cons_self _ _)]
        unfold stripStep
        rw [if_pos hw0.1, List.getElem?_set,
          if_pos (by omega : w.1.toNat = j), if_pos (by omega : w.1.toNat < s.length),
          hw0.2, (by omega : w.1.toNat = j)]
      · rw [if_neg (by rw [List.map_cons, List.mem_cons]; push_neg; exact ⟨fun h => hwj h.symm, hmem⟩)]
        unfold stripStep
        rw [if_pos hw0.1, List.getElem?_set, if_neg (by omega : ¬ w.1.toNat = j)]

lemma foldl_stripStep_covered (F : ℕ → Color) (ws : List (ℤ × Color))
    (s : List Color) (hw : ∀ w ∈ ws, 0 ≤ w.1 ∧ w.2 = F w.1.toNat)
    (hcov : ∀ j : ℕ, j < s.length → (j : ℤ) ∈ ws.map Prod.fst) :
    ws.foldl stripStep s = (List.range s.length).map F := by
  apply List.ext_getElem?
  intro j
  by_cases hj : j < s.length
  · rw [getElem?_foldl_stripStep F ws s hw j hj, if_pos (hcov j hj),
      List.getElem?_map, List.getElem?_range hj]
    rfl
  · rw [List.getElem?_eq_none (by rw [length_foldl_stripStep]; omega),
      List.getElem?_eq_none (by rw [List.length_map, List.length_range]; omega)]

lemma applyEvents_covered_const (c : Color) (tr : List Event) (s : List Color)
    (hw : ∀ w ∈ stripWrites tr, 0 ≤ w.1 ∧ w.2 = c)
    (hcov : ∀ j : ℕ, j < s.length → (j : ℤ) ∈ writeIndices tr) :
    applyEvents s tr = List.replicate s.length c := by
  rw [applyEvents_eq_foldl,
    foldl_stripStep_covered (fun _ => c) (stripWrites tr) s
      (fun w hmem => ⟨(hw w hmem).1, (hw w hmem).2⟩) hcov]
  rw [List.map_const', List.length_range]

lemma range_split (a b n : ℕ) (h : a + b = n) :
    List.range n = List.range a ++ List.range' a b := by
  subst h
  rw [List.range_eq_range', List.range_eq_range']
  have key := List.range'_append 0 a b 1
  simp only [Nat.zero_add, Nat.one_mul] at key
  rw [Nat.add_comm a b]
  exact key.symm

lemma fwd_partition (n w b2 : ℕ) (hw : w + b2 ≤ n) :
    List.range w ++ List.range' w b2 ++ List.range' (w + b2) (n - w - b2) =
      List.range n := by
  have h1 := range_split (w + b2) (n - w - b2) n (by omega)
  have h2 := range_split w b2 (w + b2) rfl
  rw [h2] at h1
  rw [List.append_assoc] at h1
  rw [List.append_assoc]
  exact h1.symm

lemma writeIndices_singleton (i : ℤ) (c : Color) :
    writeIndices [Event.setPixel i c] = [i] := rfl

lemma writeIndices_progress (rev : Bool) (lb n p : ℕ) (bc pc : Color)
    (hp : p ≤ 100) :
    writeIndices (progress rev lb n p bc pc) =
      if rev then ((List.range n).map (fun j : ℕ => (j : ℤ))).reverse
      else (List.range n).map (fun j : ℕ => (j : ℤ)) := by
  have hwle : upper_whole n p ≤ n := upper_whole_le n p hp
  have hcons : writeIndices (progress rev lb n p bc pc) =
      writeIndices (progress_fill rev lb n p pc) ++
      writeIndices (progress_boundary rev lb n p bc pc) ++
      writeIndices (progress_base_fill rev lb n p bc) := by
    unfold progress
    simp only [writeIndices, stripWrites, List.filterMap_cons, List.filterMap_append,
      List.map_append]
    simp
  rw [hcons]
  unfold progress_fill progress_base_fill
  rw [writeIndices_map_setPixel (List.range (upper_whole n p))
    (fun i : ℕ => if rev then ((n : ℤ) - 1) - (i : ℤ) else (i : ℤ)) _,
    writeIndices_map_setPixel (List.range (pixels_remaining n p))
    (fun i : ℕ => if rev then ((pixels_remaining n p : ℤ) - 1) - (i : ℤ)
      else ((n : ℤ) - pixels_remaining n p) + (i : ℤ)) _]
  cases rev with
  | false =>
    simp only [Bool.false_eq_true, if_false]
    by_cases hr : 0 < upper_remainder n p
    · have hwlt : upper_whole n p < n :=
        upper_whole_lt n p hp ((upper_remainder_pos_iff n p).mp hr)
      have hpr : pixels_remaining n p = n - upper_whole n p - 1 := by
        unfold pixels_remaining
        rw [if_pos hr]
      have hbnd : writeIndices (progress_boundary false lb n p bc pc) =
          [(upper_whole n p : ℤ)] := by
        unfold progress_boundary
        rw [if_pos hr, writeIndices_singleton]
        simp only [Bool.false_eq_true, if_false]
      rw [hbnd, hpr]
      have hseg2 : [((upper_whole n p : ℕ) : ℤ)] =
          (List.range' (upper_whole n p) 1).map (fun j : ℕ => (j : ℤ)) := by
        rw [List.range'_one]
        rfl
      have hseg3 : (List.range (n - upper_whole n p - 1)).map
          (fun i : ℕ => ((n : ℤ) - ((n - upper_whole n p - 1 : ℕ) : ℤ)) + (i : ℤ)) =
          (List.range' (upper_whole n p + 1) (n - upper_whole n p - 1)).map
            (fun j : ℕ => (j : ℤ)) := by
        rw [List.range'_eq_map_range, List.map_map]
        apply List.map_congr_left
        intro i hi
        rw [List.mem_range] at hi
        simp only [Function.comp]
        omega
      rw [hseg2, hseg3, ← List.map_append, ← List.map_append]
      congr 1
      exact fwd_partition n (upper_whole n p) 1 (by omega)
    · have hpr : pixels_remaining n p = n - upper_whole n p := by
        unfold pixels_remaining
        rw [if_neg hr]
        omega
      have hbnd : writeIndices (progress_boundary false lb n p bc pc) = [] := by
        unfold progress_boundary
        rw [if_neg hr]
        rfl
      rw [hbnd, hpr, List.append_nil]
      have hseg3 : (List.range (n - upper_whole n p)).map
          (fun i : ℕ => ((n : ℤ) - ((n - upper_whole n p : ℕ) : ℤ)) + (i : ℤ)) =
          (List.range' (upper_whole n p) (n - upper_whole n p)).map
            (fun j : ℕ => (j : ℤ)) := by
        rw [List.range'_eq_map_range, List.map_map]
        apply List.map_congr_left
        intro i hi
        rw [List.mem_range] at hi
        simp only [Function.comp]
        omega
      rw [hseg3, ← List.map_append]
      congr 1
      have hpart := fwd_partition n (upper_whole n p) 0 (by omega)
      rw [List.range'_zero, List.append_nil, Nat.add_zero, Nat.sub_zero] at hpart
      exact hpart
  | true =>
    simp only [eq_self_iff_true, if_true]
    by_cases hr : 0 < upper_remainder n p
    · have hwlt : upper_whole n p < n :=
        upper_whole_lt n p hp ((upper_remainder_pos_iff n p).mp hr)
      have hpr : pixels_remaining n p = n - upper_whole n p - 1 := by
        unfold pixels_remaining
        rw [if_pos hr]
      have hbnd : writeIndices (progress_boundary true lb n p bc pc) =
          [(n : ℤ) - (upper_whole n p : ℤ) - 1] := by
        unfold progress_boundary
        rw [if_pos hr, writeIndices_singleton]
        simp only [eq_self_iff_true, if_true]
      rw [hbnd, hpr]
      have hseg1 : (List.range (upper_whole n p)).map
          (fun i : ℕ => ((n : ℤ) - 1) - (i : ℤ)) =
          ((List.range' (n - upper_whole n p) (upper_whole n p)).reverse).map
            (fun j : ℕ => (j : ℤ)) := by
        rw [List.reverse_range', List.map_map]
        apply List.map_congr_left
        intro i hi
        rw [List.mem_range] at hi
        simp only [Function.comp]
        omega
      have hseg2 : [(n : ℤ) - (upper_whole n p : ℤ) - 1] =
          ((List.range' (n - upper_whole n p - 1) 1).reverse).map
            (fun j : ℕ => (j : ℤ)) := by
        rw [List.range'_one]
        simp only [List.reverse_singleton, List.map_cons, List.map_nil]
        congr 1
        omega
      have hrev3 := List.reverse_range' 0 (n - upper_whole n p - 1)
      rw [← List.range_eq_range'] at hrev3
      have hseg3 : (List.range (n - upper_whole n p - 1)).map
          (fun i : ℕ => (((n - upper_whole n p - 1 : ℕ) : ℤ) - 1) - (i : ℤ)) =
          ((List.range (n - upper_whole n p - 1)).reverse).map
            (fun j : ℕ => (j : ℤ)) := by
        rw [hrev3, List.map_map]
        apply List.map_congr_left
        intro i hi
        rw [List.mem_range] at hi
        simp only [Function.comp]
        omega
      rw [hseg1, hseg2, hseg3, ← List.map_append, ← List.map_append,
        ← List.map_reverse]
      congr 1
      have hpart := fwd_partition n (n - upper_whole n p - 1) 1 (by omega)
      rw [(by omega : n - upper_whole n p - 1 + 1 = n - upper_whole n p),
        (by omega : n - (n - upper_whole n p - 1) - 1 = upper_whole n p)] at hpart
      rw [← hpart, List.reverse_append, List.reverse_append, List.append_assoc]
    · have hpr : pixels_remaining n p = n - upper_whole n p := by
        unfold pixels_remaining
        rw [if_neg hr]
        omega
      have hbnd : writeIndices (progress_boundary true lb n p bc pc) = [] := by
        unfold progress_boundary
        rw [if_neg hr]
        rfl
      rw [hbnd, hpr, List.append_nil]
      have hseg1 : (List.range (upper_whole n p)).map
          (fun i : ℕ => ((n : ℤ) - 1) - (i : ℤ)) =
          ((List.range' (n - upper_whole n p) (upper_whole n p)).reverse).map
            (fun j : ℕ => (j : ℤ)) := by
        rw [List.reverse_range', List.map_map]
        apply List.map_congr_left
        intro i hi
        rw [List.mem_range] at hi
        simp only [Function.comp]
        omega
      have hrev3 := List.reverse_range' 0 (n - upper_whole n p)
      rw [← List.range_eq_range'] at hrev3
      have hseg3 : (List.range (n - upper_whole n p)).map
          (fun i : ℕ => (((n - upper_whole n p : ℕ) : ℤ) - 1) - (i : ℤ)) =
          ((List.range (n - upper_whole n p)).reverse).map
            (fun j : ℕ => (j : ℤ)) := by
        rw [hrev3, List.map_map]
        apply List.map_congr_left
        intro i hi
        rw [List.mem_range] at hi
        simp only [Function.comp]
        omega
      rw [hseg1, hseg3, ← List.map_append, ← List.map_reverse]
      congr 1
      have hpart := fwd_partition n (n - upper_whole n p) 0 (by omega)
      rw [List.range'_zero, List.append_nil, Nat.add_zero,
        (by omega : n - (n - upper_whole n p) - 0 = upper_whole n p)] at hpart
      rw [← hpart, List.reverse_append]

lemma upper_whole_zero (n : ℕ) : upper_whole n 0 = 0 := by
  rw [upper_whole_eq]
  simp

lemma upper_remainder_zero (n : ℕ) : upper_remainder n 0 = 0 := by
  rw [upper_remainder_eq]
  simp

lemma upper_whole_hundred (n : ℕ) : upper_whole n 100 = n := by
  rw [upper_whole_eq]
  omega

lemma upper_remainder_hundred (n : ℕ) : upper_remainder n 100 = 0 := by
  rw [upper_remainder_eq]
  have h : 100 * n % 100 = 0 := Nat.mul_mod_right 100 n
  rw [h]
  simp

lemma progress_fill_zero (rev : Bool) (lb n : ℕ) (pc : Color) :
    progress_fill rev lb n 0 pc = [] := by
  unfold progress_fill
  rw [upper_whole_zero]
  rfl

lemma progress_boundary_zero (rev : Bool) (lb n : ℕ) (bc pc : Color) :
    progress_boundary rev lb n 0 bc pc = [] := by
  unfold progress_boundary
  rw [upper_remainder_zero, if_neg (lt_irrefl (0 : ℚ))]

lemma pixels_remaining_zero (n : ℕ) : pixels_remaining n 0 = n := by
  unfold pixels_remaining
  rw [upper_whole_zero, upper_remainder_zero, if_neg (lt_irrefl (0 : ℚ))]
  omega

lemma progress_boundary_hundred (rev : Bool) (lb n : ℕ) (bc pc : Color) :
    progress_boundary rev lb n 100 bc pc = [] := by
  unfold progress_boundary
  rw [upper_remainder_hundred, if_neg (lt_irrefl (0 : ℚ))]

lemma pixels_remaining_hundred (n : ℕ) : pixels_remaining n 100 = 0 := by
  unfold pixels_remaining
  rw [upper_whole_hundred, upper_remainder_hundred, if_neg (lt_irrefl (0 : ℚ))]
  omega

lemma progress_base_fill_hundred (rev : Bool) (lb n : ℕ) (bc : Color) :
    progress_base_fill rev lb n 100 bc = [] := by
  unfold progress_base_fill
  rw [pixels_remaining_hundred]
  rfl

lemma stripWrites_progress (rev : Bool) (lb n p : ℕ) (bc pc : Color) :
    stripWrites (progress rev lb n p bc pc) =
      stripWrites (progress_fill rev lb n p pc) ++
      stripWrites (progress_boundary rev lb n p bc pc) ++
      stripWrites (progress_base_fill rev lb n p bc) := by
  unfold progress
  simp only [stripWrites, List.filterMap_cons, List.filterMap_append]
  simp

lemma stripWrites_progress_fill (rev : Bool) (lb n p : ℕ) (pc : Color) :
    stripWrites (progress_fill rev lb n p pc) =
      (List.range (upper_whole n p)).map (fun i : ℕ =>
        ((if rev then ((n : ℤ) - 1) - (i : ℤ) else (i : ℤ)),
         color_brightness_correction lb pc)) := by
  unfold progress_fill
  exact stripWrites_map_setPixel _ _ _

lemma stripWrites_progress_base (rev : Bool) (lb n p : ℕ) (bc : Color) :
    stripWrites (progress_base_fill rev lb n p bc) =
      (List.range (pixels_remaining n p)).map (fun i : ℕ =>
        ((if rev then ((pixels_remaining n p : ℤ) - 1) - (i : ℤ)
          else ((n : ℤ) - pixels_remaining n p) + (i : ℤ)),
         color_brightness_correction lb bc)) := by
  unfold progress_base_fill
  exact stripWrites_map_setPixel _ _ _

lemma writeIndices_progress_mem (rev : Bool) (lb n p : ℕ) (bc pc : Color)
    (hp : p ≤ 100) (j : ℕ) (hj : j < n) :
    (j : ℤ) ∈ writeIndices (progress rev lb n p bc pc) := by
  rw [writeIndices_progress rev lb n p bc pc hp]
  cases rev <;> simp [List.mem_map, List.mem_range] <;> omega

lemma applyEvents_progress_zero (rev : Bool) (lb n : ℕ) (bc pc : Color)
    (init : List Color) (hlen : init.length = n) :
    applyEvents init (progress rev lb n 0 bc pc) =
      List.replicate n (color_brightness_correction lb bc) := by
  subst hlen
  apply applyEvents_covered_const
  · intro w hw
    rw [stripWrites_progress, progress_fill_zero, progress_boundary_zero] at hw
    simp only [stripWrites_nil, List.nil_append] at hw
    rw [stripWrites_progress_base, pixels_remaining_zero, List.mem_map] at hw
    obtain ⟨i, hi, rfl⟩ := hw
    rw [List.mem_range] at hi
    refine ⟨?_, rfl⟩
    split <;> omega
  · intro j hj
    exact writeIndices_progress_mem rev lb init.length 0 bc pc (by norm_num) j hj

lemma applyEvents_progress_hundred (rev : Bool) (lb n : ℕ) (bc pc : Color)
    (init : List Color) (hlen : init.length = n) :
    applyEvents init (progress rev lb n 100 bc pc) =
      List.replicate n (color_brightness_correction lb pc) := by
  subst hlen
  apply applyEvents_covered_const
  · intro w hw
    rw [stripWrites_progress, progress_boundary_hundred, progress_base_fill_hundred] at hw
    simp only [stripWrites_nil, List.append_nil] at hw
    rw [stripWrites_progress_fill, upper_whole_hundred, List.mem_map] at hw
    obtain ⟨i, hi, rfl⟩ := hw
    rw [List.mem_range] at hi
    refine ⟨?_, rfl⟩
    split <;> omega
  · intro j hj
    exact writeIndices_progress_mem rev lb init.length 100 bc pc (by norm_num) j hj

lemma progress_lit_count_eq (rev : Bool) (lb n p : ℕ) (bc pc : Color) :
    progress_lit_count rev lb n p bc pc =
      p * n / 100 + (if p * n % 100 = 0 then 0 else 1) := by
  unfold progress_lit_count progress_fill progress_boundary
  rw [List.length_map, List.length_range, upper_whole_eq]
  by_cases h : p * n % 100 = 0
  · rw [if_neg (by simp [upper_remainder_pos_iff, h]), if_pos h]
    rfl
  · rw [if_pos ((upper_remainder_pos_iff n p).mpr h), if_neg h]
    rfl

lemma brightnessAfter_append (b : ℕ) (l1 l2 : List Event) :
    brightnessAfter b (l1 ++ l2) = brightnessAfter (brightnessAfter b l1) l2 :=
  List.foldl_append _ _ _ _

lemma displayedBrightnesses_append (b : ℕ) (l1 l2 : List Event) :
    displayedBrightnesses b (l1 ++ l2) =
      displayedBrightnesses b l1 ++
        displayedBrightnesses (brightnessAfter b l1) l2 := by
  induction l1 generalizing b with
  | nil => rfl
  | cons e l ih =>
    cases e <;> simp [displayedBrightnesses, brightnessAfter, List.foldl_cons, ih]

lemma displayedBrightnesses_of_writes (tr : List Event)
    (h : ∀ e ∈ tr, ∃ i c, e = Event.setPixel i c) (b : ℕ) :
    displayedBrightnesses b tr = [] ∧ brightnessAfter b tr = b := by
  induction tr with
  | nil => exact ⟨rfl, rfl⟩
  | cons e tr ih =>
    have ih2 := ih (fun x hx => h x (List.mem_cons_of_mem _ hx))
    obtain ⟨i, c, he⟩ := h e (List.mem_cons_self e tr)
    subst he
    exact ⟨ih2.1, ih2.2⟩

lemma displayedBrightnesses_triples (b : ℕ) (cc : ℕ → Color) (d : ℚ)
    (l : List ℕ) :
    displayedBrightnesses b (l.flatMap (fun p =>
        [Event.setPixel (p : ℤ) (cc p), Event.show_, Event.sleep d])) =
      List.replicate l.length b ∧
    brightnessAfter b (l.flatMap (fun p =>
        [Event.setPixel (p : ℤ) (cc p), Event.show_, Event.sleep d])) = b := by
  induction l with
  | nil => exact ⟨rfl, rfl⟩
  | cons p l ih =>
    rw [List.flatMap_cons]
    have h1 : displayedBrightnesses b
        [Event.setPixel (p : ℤ) (cc p), Event.show_, Event.sleep d] = [b] := rfl
    have h2 : brightnessAfter b
        [Event.setPixel (p : ℤ) (cc p), Event.show_, Event.sleep d] = b := rfl
    constructor
    · rw [displayedBrightnesses_append, h1, h2, ih.1]
      rfl
    · rw [brightnessAfter_append, h2, ih.2]

lemma displayedBrightnesses_chase_step (b n : ℕ) (c : Color) (i : ℕ) :
    displayedBrightnesses b (chase_step n c i) = List.replicate n b ∧
    brightnessAfter b (chase_step n c i) = b := by
  unfold chase_step
  have h := displayedBrightnesses_triples b
    (fun pixel => if i = pixel then c else ⟨0, 0, 0⟩) (1/100) (List.range n)
  rw [List.length_range] at h
  exact h

lemma displayedBrightnesses_chase_steps (b n : ℕ) (c : Color) (l : List ℕ) :
    displayedBrightnesses b (l.flatMap (chase_step n c)) =
      List.replicate (l.length * n) b ∧
    brightnessAfter b (l.flatMap (chase_step n c)) = b := by
  induction l with
  | nil => constructor <;> simp [displayedBrightnesses, brightnessAfter]
  | cons i l ih =>
    rw [List.flatMap_cons]
    have hstep := displayedBrightnesses_chase_step b n c i
    constructor
    · rw [displayedBrightnesses_append, hstep.1, hstep.2, ih.1, ← List.replicate_add]
      congr 1
      rw [List.length_cons]
      ring
    · rw [brightnessAfter_append, hstep.2, ih.2]

lemma stripWrites_flatMap {α : Type} (l : List α) (f : α → List Event) :
    stripWrites (l.flatMap f) = l.flatMap (fun a => stripWrites (f a)) := by
  induction l with
  | nil => rfl
  | cons a l ih => rw [List.flatMap_cons, List.flatMap_cons, stripWrites_append, ih]

lemma stripWrites_chase_step (n : ℕ) (c : Color) (i : ℕ) :
    stripWrites (chase_step n c i) =
      (List.range n).map (fun p : ℕ =>
        ((p : ℤ), if i = p then c else ⟨0, 0, 0⟩)) := by
  unfold chase_step
  rw [stripWrites_flatMap]
  induction (List.range n) with
  | nil => rfl
  | cons p l ih => rw [List.flatMap_cons, List.map_cons, ih]; rfl

lemma applyEvents_chase_step_final (n : ℕ) (c : Color) (init : List Color)
    (hlen : init.length = n) :
    applyEvents init (chase_step n c n) = List.replicate n ⟨0, 0, 0⟩ := by
  subst hlen
  apply applyEvents_covered_const
  · intro w hw
    rw [stripWrites_chase_step, List.mem_map] at hw
    obtain ⟨p, hp, rfl⟩ := hw
    rw [List.mem_range] at hp
    exact ⟨by omega, by rw [if_neg (by omega : ¬ init.length = p)]⟩
  · intro j hj
    unfold writeIndices
    rw [stripWrites_chase_step, List.map_map]
    simp only [Function.comp, List.mem_map, List.mem_range]
    exact ⟨j, hj, rfl⟩

lemma progress_body_writes (rev : Bool) (lb n p : ℕ) (bc pc : Color) :
    ∀ e ∈ progress_fill rev lb n p pc ++
        progress_boundary rev lb n p bc pc ++
        progress_base_fill rev lb n p bc,
      ∃ i c, e = Event.setPixel i c := by
  intro e he
  simp only [List.mem_append] at he
  rcases he with (he | he) | he
  · unfold progress_fill at he
    rw [List.mem_map] at he
    obtain ⟨i, -, rfl⟩ := he
    exact ⟨_, _, rfl⟩
  · unfold progress_boundary at he
    split at he
    · rw [List.mem_singleton] at he
      exact ⟨_, _, he⟩
    · exact absurd he (List.not_mem_nil e)
  · unfold progress_base_fill at he
    rw [List.mem_map] at he
    obtain ⟨i, -, rfl⟩ := he
    exact ⟨_, _, rfl⟩

lemma displayedBrightnesses_progress (b0 : ℕ) (rev : Bool) (lb n p : ℕ)
    (bc pc : Color) :
    displayedBrightnesses b0 (progress rev lb n p bc pc) = [lb] := by
  unfold progress
  show displayedBrightnesses lb
    ((progress_fill rev lb n p pc ++ progress_boundary rev lb n p bc pc ++
      progress_base_fill rev lb n p bc) ++ [Event.show_]) = [lb]
  rw [displayedBrightnesses_append]
  have hW := displayedBrightnesses_of_writes _ (progress_body_writes rev lb n p bc pc) lb
  rw [hW.1, hW.2]
  rfl

lemma displayedBrightnesses_chase (b0 lb n : ℕ) (c : Color) (rev : Bool) :
    displayedBrightnesses b0 (chase lb n c rev) =
      List.replicate ((n + 1) * n) lb := by
  unfold chase
  show displayedBrightnesses lb ((chase_sweep n rev).flatMap (chase_step n c)) = _
  rw [(displayedBrightnesses_chase_steps lb n c (chase_sweep n rev)).1]
  congr 1
  unfold chase_sweep
  split <;> simp

lemma fade_decomp (lb n : ℕ) (c : Color) (sp : String) :
    fade lb n c sp =
      (((List.range n).map (fun pixel : ℕ => Event.setPixel (pixel : ℤ) c) ++
          [Event.show_]) ++
        (List.range lb).flatMap (fun i => [Event.setBrightness i, Event.show_,
          Event.sleep (if sp = "slow" then 1/20 else 1/200)]) ++
        [Event.sleep ((if sp = "slow" then 1/20 else 1/200) * 5)] ++
        (List.range lb).flatMap (fun j => [Event.setBrightness (lb - j),
          Event.show_, Event.sleep (if sp = "slow" then 1/20 else 1/200)])) ++
      [Event.setBrightness 0, Event.show_,
        Event.sleep (if sp = "slow" then 1/20 else 1/200)] := by
  unfold fade
  simp only [List.range_succ, List.flatMap_append, List.flatMap_cons,
    List.flatMap_nil, List.append_nil, Nat.sub_self, List.append_assoc]

lemma brightnessAfter_fade (b0 lb n : ℕ) (c : Color) (sp : String) :
    brightnessAfter b0 (fade lb n c sp) = 0 := by
  rw [fade_decomp, brightnessAfter_append]
  rfl

lemma displayedBrightnesses_fade_last (b0 lb n : ℕ) (c : Color) (sp : String) :
    (displayedBrightnesses b0 (fade lb n c sp)).getLast? = some 0 := by
  rw [fade_decomp, displayedBrightnesses_append]
  have h : displayedBrightnesses
      (brightnessAfter b0
        (((List.range n).map (fun pixel : ℕ => Event.setPixel (pixel : ℤ) c) ++
            [Event.show_]) ++
          (List.range lb).flatMap (fun i => [Event.setBrightness i, Event.show_,
            Event.sleep (if sp = "slow" then 1/20 else 1/200)]) ++
          [Event.sleep ((if sp = "slow" then 1/20 else 1/200) * 5)] ++
          (List.range lb).flatMap (fun j => [Event.setBrightness (lb - j),
            Event.show_, Event.sleep (if sp = "slow" then 1/20 else 1/200)])))
      [Event.setBrightness 0, Event.show_,
        Event.sleep (if sp = "slow" then 1/20 else 1/200)] = [0] := rfl
  rw [h]
  exact List.getLast?_concat _

lemma pyInt_zero : pyInt 0 = 0 := by
  unfold pyInt
  norm_num

lemma setPixel_mem_writeIndices (tr : List Event) (i : ℤ) (c : Color)
    (h : Event.setPixel i c ∈ tr) : i ∈ writeIndices tr := by
  unfold writeIndices stripWrites
  rw [List.mem_map]
  exact ⟨(i, c), List.mem_filterMap.mpr ⟨Event.setPixel i c, h, rfl⟩, rfl⟩

/-- C1: `progress` at percent 0 paints the whole strip with the
brightness-corrected base color, at percent 100 with the brightness-corrected
progress color; the number of non-base pixels it paints (progress fill plus
boundary pixel) is monotonically non-decreasing as the percent increases over
[0,100]; and at strip length 10, percent 55 it emits exactly 5 full
progress-color pixels, 1 boundary pixel mixed at weight 1/2, and 4 base-color
pixels — in either direction. -/
theorem progress_endpoints_monotone_example (reverse : Bool) (lb n : ℕ)
    (base_color progress_color : Color) :
    (∀ init : List Color, init.length = n →
        applyEvents init (progress reverse lb n 0 base_color progress_color) =
          List.replicate n (color_brightness_correction lb base_color)) ∧
    (∀ init : List Color, init.length = n →
        applyEvents init (progress reverse lb n 100 base_color progress_color) =
          List.replicate n (color_brightness_correction lb progress_color)) ∧
    (∀ p q : ℕ, p ≤ q → q ≤ 100 →
        progress_lit_count reverse lb n p base_color progress_color ≤
          progress_lit_count reverse lb n q base_color progress_color) ∧
    ((progress_fill reverse lb 10 55 progress_color).length = 5 ∧
      (∀ e ∈ progress_fill reverse lb 10 55 progress_color, ∃ i,
        e = Event.setPixel i (color_brightness_correction lb progress_color)) ∧
      (∃ i, progress_boundary reverse lb 10 55 base_color progress_color =
        [Event.setPixel i (color_brightness_correction lb
          (mix_color progress_color base_color (some (1/2))))]) ∧
      (progress_base_fill reverse lb 10 55 base_color).length = 4 ∧
      (∀ e ∈ progress_base_fill reverse lb 10 55 base_color, ∃ i,
        e = Event.setPixel i (color_brightness_correction lb base_color))) := by
  have hw55 : upper_whole 10 55 = 5 := by
    rw [upper_whole_eq]
  have hr55 : upper_remainder 10 55 = 1/2 := by
    rw [upper_remainder_eq]
    norm_num
  have hpr55 : pixels_remaining 10 55 = 4 := by
    unfold pixels_remaining
    rw [hw55, hr55, if_pos (by norm_num : (0 : ℚ) < 1/2)]
  refine ⟨fun init hlen => applyEvents_progress_zero reverse lb n base_color
      progress_color init hlen,
    fun init hlen => applyEvents_progress_hundred reverse lb n base_color
      progress_color init hlen,
    ?_, ?_, ?_, ?_, ?_, ?_⟩
  · intro p q hpq hq
    rw [progress_lit_count_eq, progress_lit_count_eq]
    have h := Nat.mul_le_mul_right n hpq
    split_ifs <;> omega
  · unfold progress_fill
    rw [hw55, List.length_map, List.length_range]
  · intro e he
    unfold progress_fill at he
    rw [List.mem_map] at he
    obtain ⟨i, -, rfl⟩ := he
    exact ⟨_, rfl⟩
  · unfold progress_boundary
    rw [hr55, if_pos (by norm_num : (0 : ℚ) < 1/2), hw55]
    exact ⟨_, rfl⟩
  · unfold progress_base_fill
    rw [hpr55, List.length_map, List.length_range]
  · intro e he
    unfold progress_base_fill at he
    rw [List.mem_map] at he
    obtain ⟨i, -, rfl⟩ := he
    exact ⟨_, rfl⟩

theorem progress_endpoints_monotone_example_witness :
    applyEvents [Color.mk 1 1 1, Color.mk 1 1 1, Color.mk 1 1 1]
        (progress true 100 3 0 (Color.mk 0 0 255) (Color.mk 255 0 0)) =
      List.replicate 3 (color_brightness_correction 100 (Color.mk 0 0 255)) ∧
    applyEvents [Color.mk 1 1 1, Color.mk 1 1 1, Color.mk 1 1 1]
        (progress true 100 3 100 (Color.mk 0 0 255) (Color.mk 255 0 0)) =
      List.replicate 3 (color_brightness_correction 100 (Color.mk 255 0 0)) ∧
    progress_lit_count true 100 3 40 (Color.mk 0 0 255) (Color.mk 255 0 0) ≤
      progress_lit_count true 100 3 70 (Color.mk 0 0 255) (Color.mk 255 0 0) := by
  obtain ⟨h0, h100, hmono, -⟩ := progress_endpoints_monotone_example true 100 3
    (Color.mk 0 0 255) (Color.mk 255 0 0)
  exact ⟨h0 _ rfl, h100 _ rfl, hmono 40 70 (by norm_num) (by norm_num)⟩

/-- C2: for a strip of length at least 1 and a percent in [0,100], every pixel
index that `progress` writes is in [0, n-1], in either direction; and when the
whole-pixel count equals the strip length there is no boundary write and no
base write. -/
theorem progress_indices_in_range (reverse : Bool) (lb n p : ℕ)
    (bc pc : Color) (hn : 1 ≤ n) (hp : p ≤ 100) :
    (∀ i c, Event.setPixel i c ∈ progress reverse lb n p bc pc →
        0 ≤ i ∧ i < (n : ℤ)) ∧
    (upper_whole n p = n →
        progress_boundary reverse lb n p bc pc = [] ∧
        progress_base_fill reverse lb n p bc = []) := by
  constructor
  · intro i c hmem
    have hidx : i ∈ writeIndices (progress reverse lb n p bc pc) :=
      setPixel_mem_writeIndices _ i c hmem
    rw [writeIndices_progress reverse lb n p bc pc hp] at hidx
    have hex : ∃ j : ℕ, j < n ∧ (j : ℤ) = i := by
      cases reverse <;>
        simp only [List.mem_reverse, List.mem_map, List.mem_range, if_true,
          if_false, Bool.false_eq_true, eq_self_iff_true] at hidx <;>
        exact hidx
    obtain ⟨j, hj, hji⟩ := hex
    omega
  · intro hwn
    have hrem : p * n % 100 = 0 := by
      have h1 : p * n / 100 = n := by rw [← upper_whole_eq]; exact hwn
      have h2 := Nat.mul_le_mul_right n hp
      omega
    refine ⟨?_, ?_⟩
    · unfold progress_boundary
      rw [if_neg (by simp [upper_remainder_pos_iff, hrem])]
    · unfold progress_base_fill
      have hpr : pixels_remaining n p = 0 := by
        unfold pixels_remaining
        rw [if_neg (by simp [upper_remainder_pos_iff, hrem]), hwn]
        omega
      rw [hpr]
      rfl

theorem progress_indices_in_range_witness :
    (0 ≤ (0 : ℤ) ∧ (0 : ℤ) < ((1 : ℕ) : ℤ)) ∧
    progress_boundary true 100 3 100 (Color.mk 0 0 255) (Color.mk 255 0 0) = [] ∧
    progress_base_fill true 100 3 100 (Color.mk 0 0 255) = [] := by
  refine ⟨?_, ?_⟩
  · have hmem : Event.setPixel 0
        (color_brightness_correction 100 (Color.mk 0 0 255)) ∈
        progress_base_fill true 100 1 0 (Color.mk 0 0 255) := by
      unfold progress_base_fill
      rw [pixels_remaining_zero]
      norm_num
    exact (progress_indices_in_range true 100 1 0 (Color.mk 0 0 255)
      (Color.mk 255 0 0) (by norm_num) (by norm_num)).1 0
      (color_brightness_correction 100 (Color.mk 0 0 255))
      (List.mem_cons_of_mem _ (List.mem_append_left _
        (List.mem_append_right _ hmem)))
  · exact (progress_indices_in_range true 100 3 100 (Color.mk 0 0 255)
      (Color.mk 255 0 0) (by norm_num) (by norm_num)).2
      (by rw [upper_whole_eq])

/-- C9: a single `progress` call performs exactly n pixel writes, and every
pixel index in [0, n-1] is written exactly once (the fill, boundary and base
segments are pairwise disjoint and cover the strip), in either direction. -/
theorem progress_writes_each_pixel_once (reverse : Bool) (lb n p : ℕ)
    (bc pc : Color) (hp : p ≤ 100) :
    (writeIndices (progress reverse lb n p bc pc)).length = n ∧
    ∀ j : ℕ, j < n →
      (writeIndices (progress reverse lb n p bc pc)).count (j : ℤ) = 1 := by
  rw [writeIndices_progress reverse lb n p bc pc hp]
  have hnd : ((List.range n).map (fun j : ℕ => (j : ℤ))).Nodup :=
    List.Nodup.map Nat.cast_injective (List.nodup_range n)
  constructor
  · cases reverse <;> simp
  · intro j hj
    have hmem : (j : ℤ) ∈ (List.range n).map (fun j : ℕ => (j : ℤ)) := by
      rw [List.mem_map]
      exact ⟨j, List.mem_range.mpr hj, rfl⟩
    cases reverse
    · simp only [Bool.false_eq_true, if_false]
      exact List.count_eq_one_of_mem hnd hmem
    · simp only [eq_self_iff_true, if_true]
      rw [List.count_reverse]
      exact List.count_eq_one_of_mem hnd hmem

theorem progress_writes_each_pixel_once_witness :
    (writeIndices (progress true 100 3 55 (Color.mk 0 0 255)
        (Color.mk 255 0 0))).length = 3 ∧
    (writeIndices (progress true 100 3 55 (Color.mk 0 0 255)
        (Color.mk 255 0 0))).count ((2 : ℕ) : ℤ) = 1 := by
  obtain ⟨hlen, hcnt⟩ := progress_writes_each_pixel_once true 100 3 55
    (Color.mk 0 0 255) (Color.mk 255 0 0) (by norm_num)
  exact ⟨hlen, hcnt 2 (by norm_num)⟩

/-- C3 counterexample: at weight 0 the source `mix_color` falls into the
unweighted branch (Python truthiness treats 0 as absent) instead of scaling
c1 by 0 and c2 by 1 as the claim describes, so it disagrees with the
spec-side `mixColor_spec` at weight 0. -/
theorem mix_color_weight_zero_cex :
    mix_color (Color.mk 255 0 0) (Color.mk 0 0 255) (some 0) =
      Color.mk 128 0 128 ∧
    mixColor_spec (Color.mk 255 0 0) (Color.mk 0 0 255) (some 0) =
      Color.mk 0 0 128 ∧
    mix_color (Color.mk 255 0 0) (Color.mk 0 0 255) (some 0) ≠
      mixColor_spec (Color.mk 255 0 0) (Color.mk 0 0 255) (some 0) := by
  refine ⟨?_, ?_, ?_⟩ <;>
    norm_num [mix_color, mixColor_spec, weightTruthy, average, pyRound,
      Color.mk.injEq]

/-- C3 (amended): for every pair of colors and every NONZERO given weight,
`mix_color` scales c1 by the weight and c2 by (1−weight) and then averages
per channel, exactly as `mixColor_spec` describes; with no weight given it is
the unweighted per-channel average.  (Weight 0 is falsy in Python and is
treated as no weight.) -/
theorem mix_color_matches_spec_for_nonzero_weight (c1 c2 : Color) (w : ℚ)
    (hw : w ≠ 0) :
    mix_color c1 c2 (some w) = mixColor_spec c1 c2 (some w) ∧
    mix_color c1 c2 none = mixColor_spec c1 c2 none := by
  constructor
  · simp [mix_color, mixColor_spec, weightTruthy, hw]
  · simp [mix_color, mixColor_spec, weightTruthy]

theorem mix_color_matches_spec_for_nonzero_weight_witness :
    mix_color (Color.mk 255 0 0) (Color.mk 0 0 255) (some (1/2)) =
      mixColor_spec (Color.mk 255 0 0) (Color.mk 0 0 255) (some (1/2)) :=
  (mix_color_matches_spec_for_nonzero_weight (Color.mk 255 0 0)
    (Color.mk 0 0 255) (1/2) (by norm_num)).1

/-- C4 counterexample: `mix_color` with weight 1 does not return c1
(approximately or otherwise) — it averages the scaled c1 against an all-zero
scaled c2, i.e. it halves c1; and with weight 0 it does not return c2 — the
zero weight is falsy, so it returns the unweighted average instead. -/
theorem mix_color_endpoint_weights_cex :
    mix_color (Color.mk 255 0 0) (Color.mk 0 0 255) (some 1) =
      Color.mk 128 0 0 ∧
    mix_color (Color.mk 255 0 0) (Color.mk 0 0 255) (some 1) ≠
      Color.mk 255 0 0 ∧
    mix_color (Color.mk 255 0 0) (Color.mk 0 0 255) (some 0) =
      Color.mk 128 0 128 ∧
    mix_color (Color.mk 255 0 0) (Color.mk 0 0 255) (some 0) ≠
      Color.mk 0 0 255 := by
  refine ⟨?_, ?_, ?_, ?_⟩ <;>
    norm_num [mix_color, weightTruthy, average, pyRound, Color.mk.injEq]

/-- C4 (amended): `mix_color` with weight 1 returns each channel of c1 halved
(rounded half-to-even), ignoring c2; and with weight 0 it behaves exactly as
with no weight at all (the unweighted average), because 0 is falsy. -/
theorem mix_color_weight_one_halves (c1 c2 : Color) :
    mix_color c1 c2 (some 1) =
      Color.mk (pyRound ((c1.r : ℚ) / 2)) (pyRound ((c1.g : ℚ) / 2))
        (pyRound ((c1.b : ℚ) / 2)) ∧
    mix_color c1 c2 (some 0) = mix_color c1 c2 none := by
  constructor
  · have h1 : weightTruthy (some (1 : ℚ)) = true := by
      simp [weightTruthy]
    simp only [mix_color, h1, if_true, Option.getD_some, average, Color.mk.injEq]
    refine ⟨?_, ?_, ?_⟩ <;> · congr 1; ring
  · simp [mix_color, weightTruthy]

/-- C5: brightness correction with brightness 255 is the identity on every
color, and with brightness 0 it yields the all-zero color. -/
theorem brightness_correction_identity_and_zero (c : Color) :
    color_brightness_correction 255 c = c ∧
    color_brightness_correction 0 c = Color.mk 0 0 0 := by
  obtain ⟨r, g, b⟩ := c
  constructor
  · show color_brightness_correction 255 (Color.mk r g b) = Color.mk r g b
    simp only [color_brightness_correction, Color.mk.injEq]
    norm_num
    exact ⟨pyInt_intCast r, pyInt_intCast g, pyInt_intCast b⟩
  · show color_brightness_correction 0 (Color.mk r g b) = Color.mk 0 0 0
    simp only [color_brightness_correction, Color.mk.injEq]
    norm_num [pyInt_zero]

/-- C6: the heating-percent computation returns 0 whenever the target
temperature is 0 (never dividing by zero), and otherwise returns the floor of
current/target times 100. -/
theorem heating_percent_guarded (temperature target : ℚ) :
    (target = 0 → heating_percent temperature target = 0) ∧
    (target ≠ 0 → heating_percent temperature target =
        Int.floor (temperature / target * 100)) := by
  constructor
  · intro h
    rw [heating_percent, if_pos h]
  · intro h
    rw [heating_percent, if_neg h]

theorem heating_percent_guarded_witness :
    heating_percent 150 0 = 0 ∧ heating_percent 150 200 = 75 := by
  constructor
  · exact (heating_percent_guarded 150 0).1 rfl
  · rw [(heating_percent_guarded 150 200).2 (by norm_num)]
    norm_num

/-- C7: `chase` sweeps the lit position over exactly n+1 values — the whole of
`range(n+1)`, one past the last pixel index — ascending when not reversed and
descending when reversed, and on the extra position (i = n) the inner loop
blanks the entire strip, since no pixel index matches. -/
theorem chase_sweep_positions (n lb : ℕ) (c : Color) :
    chase_sweep n false = List.range (n + 1) ∧
    chase_sweep n true = (List.range (n + 1)).reverse ∧
    (∀ reverse : Bool, (chase_sweep n reverse).length = n + 1) ∧
    (∀ reverse : Bool, chase lb n c reverse =
        Event.setBrightness lb ::
          (chase_sweep n reverse).flatMap (chase_step n c)) ∧
    (∀ init : List Color, init.length = n →
        applyEvents init (chase_step n c n) =
          List.replicate n (Color.mk 0 0 0)) := by
  refine ⟨rfl, rfl, ?_, fun _ => rfl,
    fun init hlen => applyEvents_chase_step_final n c init hlen⟩
  intro reverse
  unfold chase_sweep
  split <;> simp

theorem chase_sweep_positions_witness :
    applyEvents [Color.mk 5 5 5] (chase_step 1 (Color.mk 9 9 9) 1) =
      List.replicate 1 (Color.mk 0 0 0) :=
  (chase_sweep_positions 1 100 (Color.mk 9 9 9)).2.2.2.2 [Color.mk 5 5 5] rfl

/-- C8: the KeyboardInterrupt handler writes the off color to every pixel
index in [0, n-1] of any strip state and then performs exactly one final
show, so the final flushed state has all pixels off. -/
theorem interrupt_handler_clears_strip (s : List Color) :
    applyEvents s (run_interrupt_handler s.length) =
      List.replicate s.length (Color.mk 0 0 0) ∧
    (run_interrupt_handler s.length).getLast? = some Event.show_ ∧
    (run_interrupt_handler s.length).count Event.show_ = 1 := by
  refine ⟨?_, ?_, ?_⟩
  · apply applyEvents_covered_const
    · intro w hw
      unfold run_interrupt_handler at hw
      rw [stripWrites_append] at hw
      have h2 : stripWrites [Event.show_] = [] := rfl
      rw [h2, List.append_nil, stripWrites_map_setPixel _ (fun i : ℕ => (i : ℤ))
        (fun _ => Color.mk 0 0 0), List.mem_map] at hw
      obtain ⟨i, -, rfl⟩ := hw
      exact ⟨by omega, rfl⟩
    · intro j hj
      unfold writeIndices run_interrupt_handler
      rw [stripWrites_append]
      have h2 : stripWrites [Event.show_] = [] := rfl
      rw [h2, List.append_nil, stripWrites_map_setPixel _ (fun i : ℕ => (i : ℤ))
        (fun _ => Color.mk 0 0 0), List.map_map]
      simp only [Function.comp, List.mem_map, List.mem_range]
      exact ⟨j, hj, rfl⟩
  · unfold run_interrupt_handler
    exact List.getLast?_concat _
  · unfold run_interrupt_handler
    rw [List.count_append]
    have h1 : (List.map (fun i : ℕ => Event.setPixel (i : ℤ) (Color.mk 0 0 0))
        (List.range s.length)).count Event.show_ = 0 := by
      rw [List.count_eq_zero]
      intro hmem
      rw [List.mem_map] at hmem
      obtain ⟨i, -, h⟩ := hmem
      exact absurd h (by simp)
    rw [h1]
    rfl

/-- C10: a completed `fade` call always ends with the brightness set to 0 (its
last displayed frame is at brightness 0), while `progress` and `chase` both
begin by setting the brightness back to `LED_BRIGHTNESS` before any pixel
write, so every frame they display is shown at `LED_BRIGHTNESS`, which is
nonzero — a render following a fade is never displayed at brightness 0. -/
theorem fade_ends_dark_renders_restore_brightness (b0 n p : ℕ)
    (c bc pc : Color) (sp : String) (reverse : Bool) :
    brightnessAfter b0 (fade LED_BRIGHTNESS n c sp) = 0 ∧
    (displayedBrightnesses b0 (fade LED_BRIGHTNESS n c sp)).getLast? =
      some 0 ∧
    (progress reverse LED_BRIGHTNESS n p bc pc).head? =
      some (Event.setBrightness LED_BRIGHTNESS) ∧
    (chase LED_BRIGHTNESS n c reverse).head? =
      some (Event.setBrightness LED_BRIGHTNESS) ∧
    displayedBrightnesses b0 (progress reverse LED_BRIGHTNESS n p bc pc) =
      [LED_BRIGHTNESS] ∧
    displayedBrightnesses b0 (chase LED_BRIGHTNESS n c reverse) =
      List.replicate ((n + 1) * n) LED_BRIGHTNESS ∧
    LED_BRIGHTNESS ≠ 0 :=
  ⟨brightnessAfter_fade b0 LED_BRIGHTNESS n c sp,
   displayedBrightnesses_fade_last b0 LED_BRIGHTNESS n c sp,
   rfl, rfl,
   displayedBrightnesses_progress b0 reverse LED_BRIGHTNESS n p bc pc,
   displayedBrightnesses_chase b0 LED_BRIGHTNESS n c reverse,
   by norm_num [LED_BRIGHTNESS]⟩
